import Mathlib

/-!
Verification development for the safe-file-deletion service: a shallow
embedding of the protection engine (scope and pattern matching with a
decision cache), the deletion service (path validation, batch
coordination, outcome classification) and the audit logger (level
filtering, size-triggered rotation, retention), together with theorems
about their behaviour.

Paths are plain strings; the filesystem is an explicit list of existing
paths; stateful components (decision cache, logger) are explicit state
passing.
-/

namespace SafeDeletion

/-! ## String helpers (POSIX path handling) -/

/-- Substring test: does `sub` occur contiguously inside `l`?
Models JavaScript `String.prototype.includes` on the underlying chars. -/
def listIsInfix (sub : List Char) : List Char → Bool
  | [] => sub.isEmpty
  | c :: t => sub.isPrefixOf (c :: t) || listIsInfix sub t

/-- JavaScript `s.includes(sub)`. -/
def strIncludes (s sub : String) : Bool := listIsInfix sub.data s.data

/-- JavaScript `s.startsWith(pre)`. -/
def strStartsWith (s pre : String) : Bool := pre.data.isPrefixOf s.data

/-- Split a character list on `'/'`, like JavaScript `s.split('/')`. -/
def splitSlash : List Char → List (List Char)
  | [] => [[]]
  | c :: cs =>
    if c = '/' then [] :: splitSlash cs
    else
      match splitSlash cs with
      | [] => [[c]]
      | s :: rest => (c :: s) :: rest

/-- Path segments of a string, split on `'/'`. -/
def segmentsOf (s : String) : List String :=
  (splitSlash s.data).map (fun cs => ⟨cs⟩)

/-- `path.isAbsolute` for POSIX: the path starts with `'/'`. -/
def isAbsolutePath (p : String) : Bool :=
  match p.data with
  | '/' :: _ => true
  | [] => false
  | _ :: _ => false

/-- `filePath.replace(/\/$/, '')`: strip one trailing slash if present. -/
def stripTrailingSlash (p : String) : String :=
  if p.data.getLast? = some '/' then ⟨p.data.dropLast⟩ else p

/-- `path.basename`: the last `'/'`-separated segment. -/
def basenameOf (p : String) : String :=
  ⟨((splitSlash p.data).getLast?).getD []⟩

/-- `path.relative(dir, p)` in the only situation the engine uses it:
`dir` equals `p` or is a boundary-aware prefix of `p`. -/
def relativeTo (dir p : String) : String :=
  if p = dir then ""
  else if (dir ++ "/").data.isPrefixOf p.data then ⟨p.data.drop (dir.data.length + 1)⟩
  else p

/-! ## Glob matching (model of `minimatch`)

One path-segment pattern supports literal characters, `?` (any single
character) and `*` (any character run); a whole pattern is segments
joined by `'/'`, where a `**` segment spans zero or more path segments.
As in `minimatch`'s default `dot:false` mode, a wildcard at the start of
a pattern segment does not match a name that starts with a dot. -/

/-- Glob match of one pattern segment against one name segment, with a
fuel counter bounding the recursion (any fuel of at least
`pattern.length + name.length + 1` gives the matcher's answer). -/
def globSegFuel : Nat → List Char → List Char → Bool
  | 0, _, _ => false
  | _ + 1, [], [] => true
  | _ + 1, [], _ :: _ => false
  | fuel + 1, '*' :: ps, [] => globSegFuel fuel ps []
  | fuel + 1, '*' :: ps, c :: cs =>
    globSegFuel fuel ps (c :: cs) || globSegFuel fuel ('*' :: ps) cs
  | _ + 1, '?' :: _, [] => false
  | fuel + 1, '?' :: ps, _ :: cs => globSegFuel fuel ps cs
  | _ + 1, _ :: _, [] => false
  | fuel + 1, p :: ps, c :: cs => (p = c) && globSegFuel fuel ps cs

/-- Glob match of one pattern segment against one name segment. -/
def globSeg (p n : List Char) : Bool :=
  globSegFuel (p.length + n.length + 1) p n

/-- Segment match with the leading-dot rule: a wildcard-initial pattern
segment never matches a dot-initial name segment. -/
def matchSeg (p n : List Char) : Bool :=
  match p, n with
  | pc :: _, '.' :: _ => if pc = '*' || pc = '?' then false else globSeg p n
  | _, _ => globSeg p n

/-- Match pattern segments against name segments with a fuel counter
(any fuel of at least `ps.length + ns.length + 1` gives the matcher's
answer); a `**` pattern segment consumes zero or more non-dot name
segments. -/
def matchSegsFuel : Nat → List (List Char) → List (List Char) → Bool
  | 0, _, _ => false
  | _ + 1, [], [] => true
  | _ + 1, [], _ :: _ => false
  | fuel + 1, p :: ps, ns =>
    if p = ['*', '*'] then
      matchSegsFuel fuel ps ns ||
        (match ns with
         | [] => false
         | n :: rest => !(n.head? = some '.') && matchSegsFuel fuel (p :: ps) rest)
    else
      match ns with
      | [] => false
      | n :: rest => matchSeg p n && matchSegsFuel fuel ps rest

/-- Match a list of pattern segments against a list of name segments. -/
def matchSegs (ps ns : List (List Char)) : Bool :=
  matchSegsFuel (ps.length + ns.length + 1) ps ns

/-- `minimatch(str, pattern)` with default options. -/
def minimatchRun (str pattern : String) : Bool :=
  matchSegs (splitSlash pattern.data) (splitSlash str.data)

/-- `minimatch(str, pattern, { matchBase: true })`: a slash-free pattern
is matched against the basename of the string. -/
def minimatchBase (str pattern : String) : Bool :=
  if pattern.data.contains '/' then minimatchRun str pattern
  else minimatchRun (basenameOf str) pattern

/-! ## Configuration -/

/-- Configured minimum log level. -/
inductive LogLevel where
  | none
  | debug
  | info
  | warn
  | error
deriving DecidableEq, Repr

/-- The service configuration (`Configuration` in the source). -/
structure Configuration where
  allowedDirectories : List String
  protectedPatterns : List String
  logLevel : LogLevel
  maxBatchSize : Nat
  maxLogFileSize : Option Nat
  maxLogFiles : Option Nat
deriving DecidableEq, Repr

/-! ## Protection engine -/

/-- `isWithinAllowedDirectories`: some allowed directory equals the path
or is a boundary-aware prefix of it. -/
def isWithinAllowedDirectories (cfg : Configuration) (filePath : String) : Bool :=
  cfg.allowedDirectories.any (fun dir =>
    filePath = dir || strStartsWith filePath (dir ++ "/"))

/-- Insert into a list sorted by descending string length (stable). -/
def insertLenDesc (d : String) : List String → List String
  | [] => [d]
  | e :: es => if d.length > e.length then d :: e :: es else e :: insertLenDesc d es

/-- Sort strings by descending length (model of the source's
`sort((a, b) => b.length - a.length)`). -/
def sortByLenDesc : List String → List String
  | [] => []
  | d :: ds => insertLenDesc d (sortByLenDesc ds)

/-- `getMatchingAllowedDirectory`: the longest allowed directory that
equals the path or is a boundary-aware prefix of it, if any. -/
def getMatchingAllowedDirectory (cfg : Configuration) (filePath : String) : Option String :=
  let ms := (cfg.allowedDirectories.filter (fun dir =>
    filePath = dir || strStartsWith filePath (dir ++ "/")))
  (sortByLenDesc ms).head?

/-- One protected pattern tried against a path, in the engine's order:
full path (with `matchBase`), basename, path relative to the containing
allowed directory (only for patterns with `'/'` or `**`), and finally
every path segment individually. -/
def matchesProtectedPattern (cfg : Configuration) (filePath pattern : String) : Bool :=
  let normalizedPath := stripTrailingSlash filePath
  if minimatchBase normalizedPath pattern then true
  else if minimatchRun (basenameOf normalizedPath) pattern then true
  else if (strIncludes pattern "/" || strIncludes pattern "**") &&
      (match getMatchingAllowedDirectory cfg normalizedPath with
       | some dir => minimatchRun (relativeTo dir normalizedPath) pattern
       | Option.none => false) then true
  else (segmentsOf normalizedPath).any (fun seg => minimatchRun seg pattern)

/-- The pattern evaluation inside `isProtected`: logical OR over all
configured protected patterns. -/
def evalProtectedPatterns (cfg : Configuration) (filePath : String) : Bool :=
  cfg.protectedPatterns.any (fun pattern => matchesProtectedPattern cfg filePath pattern)

/-- `isProtected` (cache-free result): fail-closed outside the allowed
directories, otherwise pattern evaluation. -/
def isProtected (cfg : Configuration) (filePath : String) : Bool :=
  if !isWithinAllowedDirectories cfg filePath then true
  else evalProtectedPatterns cfg filePath

/-! ## Protection decision cache

The engine's `patternCache` is a `Map<string, boolean>`, modelled as an
association list in insertion order. -/

/-- The decision cache. -/
abbrev Cache : Type := List (String × Bool)

/-- `Map.get`-style lookup. -/
def cacheGet (m : Cache) (k : String) : Option Bool :=
  ((List.find? (fun kv => kv.1 = k) m)).map (fun kv => kv.2)

/-- `Map.set`: replace an existing binding or append a new one. -/
def cacheSet (m : Cache) (k : String) (v : Bool) : Cache :=
  if (List.any m (fun kv => kv.1 = k)) then
    List.map (fun kv => if kv.1 = k then (k, v) else kv) m
  else m ++ [(k, v)]

/-- `isProtected` on the engine state: fail-closed outside allowed
directories (no cache write), cache hit, or evaluate the patterns and
cache the boolean keyed by the exact input path. Returns the decision
and the updated cache. -/
def isProtectedCached (cfg : Configuration) (m : Cache) (filePath : String) :
    Bool × Cache :=
  if !isWithinAllowedDirectories cfg filePath then (true, m)
  else
    match cacheGet m filePath with
    | some b => (b, m)
    | Option.none =>
      let result := evalProtectedPatterns cfg filePath
      (result, cacheSet m filePath result)

/-- `invalidateCache(changedPath)`: delete every cache entry whose key
contains the changed path or is contained in it. -/
def invalidateCache (m : Cache) (changedPath : String) : Cache :=
  List.filter
    (fun kv => !(strIncludes kv.1 changedPath || strIncludes changedPath kv.1)) m

/-- The cache after `dispose()`: cleared. -/
def disposeCache (_ : Cache) : Cache := []

/-! ## Deletion service -/

/-- `ValidationResult`. -/
structure ValidationResult where
  valid : Bool
  reason : Option String
  matchedDirectory : Option String
deriving DecidableEq, Repr

/-- `DeletionResult`: `error` is a filesystem-level failure, `reason` a
policy rejection. -/
structure DeletionResult where
  success : Bool
  path : String
  error : Option String
  reason : Option String
deriving DecidableEq, Repr

/-- `BatchDeletionResult`. -/
structure BatchDeletionResult where
  deleted : List String
  failed : List (String × String)
  rejected : List (String × String)
  cancelled : Option Bool
  reason : Option String
deriving DecidableEq, Repr

/-- `BatchValidationResult`. -/
structure BatchValidationResult where
  valid : Bool
  validPaths : List String
  invalidPaths : List (String × String)
  protectedPaths : List (String × String)
deriving DecidableEq, Repr

/-- `validatePath`: absoluteness, then scope via
`getMatchingAllowedDirectory`, then protection via `isProtected`. -/
def validatePath (cfg : Configuration) (filePath : String) : ValidationResult :=
  if !isAbsolutePath filePath then
    { valid := false, reason := some "Only absolute paths are accepted",
      matchedDirectory := Option.none }
  else
    match getMatchingAllowedDirectory cfg filePath with
    | Option.none =>
      { valid := false, reason := some "Path is outside allowed directories",
        matchedDirectory := Option.none }
    | some matchingDirectory =>
      if isProtected cfg filePath then
        { valid := false, reason := some "Path matches protected pattern",
          matchedDirectory := Option.none }
      else
        { valid := true, reason := Option.none,
          matchedDirectory := some matchingDirectory }

/-- The three partitions built by `validateBatch`, preserving input
order within each. -/
def validateBatchAux (cfg : Configuration) :
    List String → List String × List (String × String) × List (String × String)
  | [] => ([], [], [])
  | filePath :: rest =>
    let (vs, is, prs) := validateBatchAux cfg rest
    let validation := validatePath cfg filePath
    if validation.valid then (filePath :: vs, is, prs)
    else
      match validation.reason with
      | some r =>
        if strIncludes r "protected" then (vs, is, (filePath, r) :: prs)
        else (vs, (filePath, r) :: is, prs)
      | Option.none => (vs, (filePath, "Invalid path") :: is, prs)

/-- `validateBatch`: partition by `validatePath` verdict; the batch is
valid iff both failure partitions are empty. -/
def validateBatch (cfg : Configuration) (paths : List String) :
    BatchValidationResult :=
  let (vs, is, prs) := validateBatchAux cfg paths
  { valid := is.isEmpty && prs.isEmpty,
    validPaths := vs, invalidPaths := is, protectedPaths := prs }

/-- The filesystem, as the list of currently existing paths. -/
abbrev FileSystem : Type := List String

/-- `existsSync`. -/
def fsExists (fs : FileSystem) (p : String) : Bool := decide (p ∈ fs)

/-- `fs.unlink` / `fs.rmdir` on an existing path: the path is removed. -/
def fsRemove (fs : FileSystem) (p : String) : FileSystem :=
  List.filter (fun q => q ≠ p) fs

/-- A filesystem access performed by the service. -/
inductive FsOp where
  | existsCheck (path : String)
  | unlink (path : String)
  | rmdir (path : String)
deriving DecidableEq, Repr

/-- An audit-log call emitted by the service. -/
inductive LogResult where
  | success
  | failed
  | rejected
deriving DecidableEq, Repr

/-- The outcome of one deletion call: resulting filesystem, result
value, filesystem accesses performed, and log calls emitted. -/
structure DelOut where
  fs : FileSystem
  res : DeletionResult
  fsOps : List FsOp
  logs : List (String × LogResult)
deriving Repr

/-- `deleteFile`: reject on failed validation (no filesystem access),
fail when the file does not exist, otherwise unlink. -/
def deleteFile (cfg : Configuration) (fs : FileSystem) (filePath : String) : DelOut :=
  let validation := validatePath cfg filePath
  if !validation.valid then
    { fs := fs,
      res := { success := false, path := filePath, error := Option.none,
               reason := validation.reason },
      fsOps := [], logs := [(filePath, LogResult.rejected)] }
  else if !fsExists fs filePath then
    { fs := fs,
      res := { success := false, path := filePath, error := some "File not found",
               reason := Option.none },
      fsOps := [FsOp.existsCheck filePath], logs := [(filePath, LogResult.failed)] }
  else
    { fs := fsRemove fs filePath,
      res := { success := true, path := filePath, error := Option.none,
               reason := Option.none },
      fsOps := [FsOp.existsCheck filePath, FsOp.unlink filePath],
      logs := [(filePath, LogResult.success)] }

/-- `deleteDirectory`: identical shape to `deleteFile` with
"Directory not found" and `rmdir` (which only succeeds on an empty
directory; a directory the model removes is assumed empty). -/
def deleteDirectory (cfg : Configuration) (fs : FileSystem) (dirPath : String) : DelOut :=
  let validation := validatePath cfg dirPath
  if !validation.valid then
    { fs := fs,
      res := { success := false, path := dirPath, error := Option.none,
               reason := validation.reason },
      fsOps := [], logs := [(dirPath, LogResult.rejected)] }
  else if !fsExists fs dirPath then
    { fs := fs,
      res := { success := false, path := dirPath, error := some "Directory not found",
               reason := Option.none },
      fsOps := [FsOp.existsCheck dirPath], logs := [(dirPath, LogResult.failed)] }
  else
    { fs := fsRemove fs dirPath,
      res := { success := true, path := dirPath, error := Option.none,
               reason := Option.none },
      fsOps := [FsOp.existsCheck dirPath, FsOp.rmdir dirPath],
      logs := [(dirPath, LogResult.success)] }

/-- The execution stage of `deleteBatch`: one `deleteFile` per
validated path, each classified by its own result into `deleted` or
`failed` (the `error ?? reason ?? 'Unknown error'` message). -/
def runBatch (cfg : Configuration) (fs : FileSystem) :
    List String → FileSystem × List String × List (String × String) × List FsOp × List (String × LogResult)
  | [] => (fs, [], [], [], [])
  | filePath :: rest =>
    let o := deleteFile cfg fs filePath
    let (fs', del, fail, ops, logs) := runBatch cfg o.fs rest
    if o.res.success then
      (fs', filePath :: del, fail, o.fsOps ++ ops, o.logs ++ logs)
    else
      (fs', del,
        (filePath, (o.res.error.getD (o.res.reason.getD "Unknown error"))) :: fail,
        o.fsOps ++ ops, o.logs ++ logs)

/-- The outcome of a batch deletion. -/
structure BatchOut where
  fs : FileSystem
  result : BatchDeletionResult
  fsOps : List FsOp
  logs : List (String × LogResult)
deriving Repr

/-- `deleteBatch`: size ceiling, then whole-batch validation, then the
execution stage. -/
def deleteBatch (cfg : Configuration) (fs : FileSystem) (paths : List String) : BatchOut :=
  if paths.length > cfg.maxBatchSize then
    { fs := fs,
      result :=
        { deleted := [], failed := [],
          rejected := paths.map (fun p =>
            (p, "Batch size exceeds limit (" ++ toString cfg.maxBatchSize ++ ")")),
          cancelled := some true, reason := some "Batch size limit exceeded" },
      fsOps := [], logs := [] }
  else
    let validation := validateBatch cfg paths
    if !validation.valid then
      { fs := fs,
        result :=
          { deleted := [], failed := [],
            rejected := validation.invalidPaths ++ validation.protectedPaths,
            cancelled := some true,
            reason := some "Batch contains protected or invalid paths" },
        fsOps := [], logs := [] }
    else
      let (fs', del, fail, ops, logs) := runBatch cfg fs validation.validPaths
      { fs := fs',
        result :=
          { deleted := del, failed := fail, rejected := [],
            cancelled := Option.none, reason := Option.none },
        fsOps := ops, logs := logs }

/-! ## Audit logger

The logger's file state is modelled explicitly: log files are records
with a unique numeric name (`id`, drawn from a fresh-name counter
standing for the timestamp-plus-random file name), a modification time
and a byte size; the serialized byte size of an entry (its JSON line
plus newline) is an explicit `Nat`. -/

/-- An audit log entry (`AuditLog` in the source); timestamp and
request id carry no behaviour and are omitted. -/
structure AuditLog where
  operation : String
  paths : Option (List String)
  result : LogResult
  reason : Option String
deriving DecidableEq, Repr

/-- `logLevels.indexOf(configLevel)` over `['debug','info','warn',
'error']`; `'none'` is absent and yields `-1`. -/
def configLevelIndex : LogLevel → Int
  | LogLevel.none => -1
  | LogLevel.debug => 0
  | LogLevel.info => 1
  | LogLevel.warn => 2
  | LogLevel.error => 3

/-- The level index derived for an entry: `failed` is error, `rejected`
is warn, a `DEBUG:`-tagged reason is debug, everything else info. -/
def entryLevelIndex (entry : AuditLog) : Int :=
  if entry.result = LogResult.failed then 3
  else if entry.result = LogResult.rejected then 2
  else if (entry.reason.map (fun r => strStartsWith r "DEBUG:")).getD false then 0
  else 1

/-- `shouldLog`: the entry's level reaches the configured minimum. -/
def shouldLog (cfg : Configuration) (entry : AuditLog) : Bool :=
  entryLevelIndex entry ≥ configLevelIndex cfg.logLevel

/-- Whether the constructor initializes the log directory: only when
logging is enabled (level is not `none`). -/
def constructorInitializesLogDirectory (cfg : Configuration) : Bool :=
  cfg.logLevel ≠ LogLevel.none

/-- `writeLogEntry` restricted to the in-memory tail: `none` suppresses
everything; a below-level entry is dropped; otherwise the entry joins
the tail, trimmed to the most recent 1000. Returns the new tail and
whether the entry was retained (and hence handed to the file writer). -/
def writeLogEntry (cfg : Configuration) (memory : List AuditLog) (entry : AuditLog) :
    List AuditLog × Bool :=
  if cfg.logLevel = LogLevel.none then (memory, false)
  else if !shouldLog cfg entry then (memory, false)
  else
    let m := memory ++ [entry]
    (if m.length > 1000 then m.drop (m.length - 1000) else m, true)

/-- `getRecentLogs(limit)`: up to `limit` retained entries, most recent
first. -/
def getRecentLogs (memory : List AuditLog) (limit : Nat) : List AuditLog :=
  ((memory.drop (memory.length - limit))).reverse

/-- One file in the log directory. -/
structure LogFile where
  id : Nat
  mtime : Nat
  size : Nat
deriving DecidableEq, Repr

/-- The logger's file-side state: the files on disk in the log
directory, a clock supplying modification times, a fresh-name counter,
the active file name (none models the empty string) and the tracked
size counter. -/
structure LogState where
  files : List LogFile
  clock : Nat
  nextId : Nat
  currentLogFile : Option Nat
  currentLogFileSize : Nat
deriving DecidableEq, Repr

/-- Effective maximum log file size (default 10 MiB). -/
def maxLogFileSizeOf (cfg : Configuration) : Nat :=
  cfg.maxLogFileSize.getD (10 * 1024 * 1024)

/-- Effective maximum retained log file count (default 5). -/
def maxLogFilesOf (cfg : Configuration) : Nat :=
  cfg.maxLogFiles.getD 5

/-- `initializeLogDirectory`: pick a fresh unique file name; the file
does not exist yet, so the size counter starts at 0. -/
def initializeLogDirectory (st : LogState) : LogState :=
  { st with currentLogFile := some st.nextId, nextId := st.nextId + 1,
            currentLogFileSize := 0 }

/-- `shouldRotateLog(entrySize)`: appending would exceed the maximum. -/
def shouldRotateLog (cfg : Configuration) (st : LogState) (entrySize : Nat) : Bool :=
  st.currentLogFileSize + entrySize > maxLogFileSizeOf cfg

/-- Insert into a list sorted by ascending modification time (stable). -/
def insertMtime (f : LogFile) : List LogFile → List LogFile
  | [] => [f]
  | g :: gs => if f.mtime < g.mtime then f :: g :: gs else g :: insertMtime f gs

/-- Sort log files by ascending modification time (model of the
source's `sort by mtime`). -/
def sortByMtime : List LogFile → List LogFile
  | [] => []
  | f :: fs => insertMtime f (sortByMtime fs)

/-- `cleanupOldLogFiles`: when more than the maximum count exist, sort
by modification time ascending and delete the oldest, keeping the
newest `maxLogFiles`. -/
def cleanupOldLogFiles (cfg : Configuration) (st : LogState) : LogState :=
  let maxFiles := maxLogFilesOf cfg
  if st.files.length ≤ maxFiles then st
  else { st with files := (sortByMtime st.files).drop (st.files.length - maxFiles) }

/-- `rotateLogFile`: with an active file, switch to a fresh unique file
name, reset the size counter, then run retention cleanup. -/
def rotateLogFile (cfg : Configuration) (st : LogState) : LogState :=
  match st.currentLogFile with
  | Option.none => st
  | some _ =>
    cleanupOldLogFiles cfg
      { st with currentLogFile := some st.nextId, nextId := st.nextId + 1,
                currentLogFileSize := 0 }

/-- `fs.appendFile` on the file named `i`: grow it if it exists,
create it otherwise; either way it becomes the most recently
modified. -/
def appendToFile (st : LogState) (i entrySize : Nat) : LogState :=
  if st.files.any (fun f => f.id = i) then
    { st with
      files := st.files.map (fun f =>
        if f.id = i then { f with size := f.size + entrySize, mtime := st.clock } else f),
      clock := st.clock + 1 }
  else
    { st with files := st.files ++ [{ id := i, mtime := st.clock, size := entrySize }],
              clock := st.clock + 1 }

/-- `writeToFile` for an entry of serialized size `entrySize`:
initialize on first use, rotate first when the append would exceed the
maximum file size, then append to the active file and grow the size
counter. -/
def writeToFile (cfg : Configuration) (st : LogState) (entrySize : Nat) : LogState :=
  let st1 := if st.currentLogFile = Option.none then initializeLogDirectory st else st
  let st2 := if shouldRotateLog cfg st1 entrySize then rotateLogFile cfg st1 else st1
  match st2.currentLogFile with
  | Option.none => st2
  | some i =>
    { appendToFile st2 i entrySize with
      currentLogFileSize := st2.currentLogFileSize + entrySize }

/-! ## Supporting lemmas -/

theorem length_insertLenDesc (d : String) (l : List String) :
    (insertLenDesc d l).length = l.length + 1 := by
  induction l with
  | nil => rfl
  | cons e es ih =>
    simp only [insertLenDesc]
    split <;> simp [ih]

theorem length_sortByLenDesc (l : List String) :
    (sortByLenDesc l).length = l.length := by
  induction l with
  | nil => rfl
  | cons d ds ih => simp [sortByLenDesc, length_insertLenDesc, ih]

theorem mem_insertLenDesc {a d : String} {l : List String} :
    a ∈ insertLenDesc d l ↔ a = d ∨ a ∈ l := by
  induction l with
  | nil => simp [insertLenDesc]
  | cons e es ih =>
    simp only [insertLenDesc]
    split <;> simp [ih, or_left_comm]

theorem mem_sortByLenDesc {a : String} {l : List String} :
    a ∈ sortByLenDesc l ↔ a ∈ l := by
  induction l with
  | nil => simp [sortByLenDesc]
  | cons d ds ih => simp [sortByLenDesc, mem_insertLenDesc, ih]

theorem sortByLenDesc_head_max :
    ∀ (l : List String) (m : String), (sortByLenDesc l).head? = some m →
      m ∈ l ∧ ∀ a ∈ l, a.length ≤ m.length := by
  intro l
  induction l with
  | nil => intro m h; simp [sortByLenDesc] at h
  | cons d ds ih =>
    intro m h
    simp only [sortByLenDesc] at h
    cases hs : sortByLenDesc ds with
    | nil =>
      rw [hs] at h
      simp only [insertLenDesc, List.head?] at h
      have hm : m = d := by injection h with h1; exact h1.symm
      subst hm
      refine ⟨List.mem_cons_self _ _, ?_⟩
      intro a ha
      rcases List.mem_cons.mp ha with rfl | ha
      · exact Nat.le_refl _
      · exfalso
        have : a ∈ sortByLenDesc ds := mem_sortByLenDesc.mpr ha
        rw [hs] at this
        exact (List.not_mem_nil a) this
    | cons e es =>
      rw [hs] at h
      simp only [insertLenDesc] at h
      have ihe := ih e (by rw [hs]; rfl)
      by_cases hd : d.length > e.length
      · rw [if_pos hd] at h
        have hm : m = d := by
          simp only [List.head?] at h; injection h; simp_all
        subst hm
        refine ⟨List.mem_cons_self _ _, ?_⟩
        intro a ha
        rcases List.mem_cons.mp ha with rfl | ha
        · exact Nat.le_refl _
        · exact Nat.le_trans (ihe.2 a ha) (Nat.le_of_lt hd)
      · rw [if_neg hd] at h
        have hm : m = e := by
          simp only [List.head?] at h; injection h; simp_all
        subst hm
        refine ⟨List.mem_cons_of_mem _ ihe.1, ?_⟩
        intro a ha
        rcases List.mem_cons.mp ha with rfl | ha
        · exact Nat.le_of_not_lt hd
        · exact ihe.2 a ha

theorem getMatchingAllowedDirectory_none_iff (cfg : Configuration) (p : String) :
    getMatchingAllowedDirectory cfg p = Option.none ↔
      isWithinAllowedDirectories cfg p = false := by
  simp only [getMatchingAllowedDirectory, isWithinAllowedDirectories]
  constructor
  · intro h
    have hnil : sortByLenDesc (cfg.allowedDirectories.filter
        (fun dir => p = dir || strStartsWith p (dir ++ "/"))) = [] := by
      cases hc : sortByLenDesc (cfg.allowedDirectories.filter
          (fun dir => p = dir || strStartsWith p (dir ++ "/"))) with
      | nil => rfl
      | cons x xs => rw [hc] at h; simp [List.head?] at h
    have hlen := length_sortByLenDesc (cfg.allowedDirectories.filter
        (fun dir => p = dir || strStartsWith p (dir ++ "/")))
    rw [hnil] at hlen
    have hfil : cfg.allowedDirectories.filter
        (fun dir => p = dir || strStartsWith p (dir ++ "/")) = [] :=
      List.eq_nil_of_length_eq_zero hlen.symm
    simp only [List.any_eq_false]
    intro d hd
    intro hcontra
    have : d ∈ cfg.allowedDirectories.filter
        (fun dir => p = dir || strStartsWith p (dir ++ "/")) :=
      List.mem_filter.mpr ⟨hd, hcontra⟩
    rw [hfil] at this
    exact (List.not_mem_nil d) this
  · intro h
    cases hc : sortByLenDesc (cfg.allowedDirectories.filter
        (fun dir => p = dir || strStartsWith p (dir ++ "/"))) with
    | nil => simp [hc]
    | cons x xs =>
      exfalso
      have hx : x ∈ cfg.allowedDirectories.filter
          (fun dir => p = dir || strStartsWith p (dir ++ "/")) := by
        have := mem_sortByLenDesc (a := x)
          (l := cfg.allowedDirectories.filter
            (fun dir => p = dir || strStartsWith p (dir ++ "/")))
        rw [hc] at this
        exact this.mp (List.mem_cons_self x xs)
      have hx2 := List.mem_filter.mp hx
      have := List.any_eq_false.mp h x hx2.1
      exact this hx2.2

/-- Example configuration from the spec's scenario:
allowed `["/tmp/proj"]`, patterns `[".git"]`. -/
def exampleConfig : Configuration :=
  { allowedDirectories := ["/tmp/proj"], protectedPatterns := [".git"],
    logLevel := LogLevel.info, maxBatchSize := 50,
    maxLogFileSize := Option.none, maxLogFiles := Option.none }

/-- Configuration with a single allowed directory `/a/b`, for boundary
checks. -/
def boundaryConfig : Configuration :=
  { allowedDirectories := ["/a/b"], protectedPatterns := [],
    logLevel := LogLevel.info, maxBatchSize := 50,
    maxLogFileSize := Option.none, maxLogFiles := Option.none }

/-- Configuration with nested allowed directories `/a` and `/a/b/c`. -/
def nestedConfig : Configuration :=
  { allowedDirectories := ["/a", "/a/b/c"], protectedPatterns := [],
    logLevel := LogLevel.info, maxBatchSize := 50,
    maxLogFileSize := Option.none, maxLogFiles := Option.none }

/-! ## Claims -/

/-- C1: every path that is not within any configured allowed directory
(neither equal to one nor extending one past a `/` boundary) is
protected, regardless of the configured protected patterns; and in the
scenario with allowed `["/tmp/proj"]` and patterns `[".git"]`,
`/etc/passwd` and `/tmp/proj/.git/config` are protected while
`/tmp/proj/readme.md` is not. -/
theorem isProtected_fail_closed :
    (∀ (cfg : Configuration) (p : String),
        (∀ d ∈ cfg.allowedDirectories, p ≠ d ∧ strStartsWith p (d ++ "/") = false) →
        isProtected cfg p = true) ∧
    isProtected exampleConfig "/etc/passwd" = true ∧
    isProtected exampleConfig "/tmp/proj/.git/config" = true ∧
    isProtected exampleConfig "/tmp/proj/readme.md" = false := by
  refine ⟨?_, by decide, by decide, by decide⟩
  intro cfg p h
  have hw : isWithinAllowedDirectories cfg p = false := by
    simp only [isWithinAllowedDirectories, List.any_eq_false]
    intro d hd
    have := h d hd
    simp [this.1, this.2]
  simp [isProtected, hw]

/-- C1 witness: a concrete out-of-scope path is protected. -/
theorem isProtected_fail_closed_witness :
    isProtected exampleConfig "/etc/shadow" = true :=
  isProtected_fail_closed.1 exampleConfig "/etc/shadow" (by decide)

/-- C6: `isWithinAllowedDirectories` is boundary-aware membership in
some allowed directory; `getMatchingAllowedDirectory` returns the
longest matching allowed directory, or none exactly when the path is
out of scope; `/a/b` matches `/a/b` and `/a/b/c` but not `/a/bc`; the
nested allowed directory `/a/b/c` takes precedence over `/a`. -/
theorem allowed_directory_scope_spec :
    (∀ (cfg : Configuration) (p : String),
      isWithinAllowedDirectories cfg p = true ↔
        ∃ d ∈ cfg.allowedDirectories, p = d ∨ strStartsWith p (d ++ "/") = true) ∧
    (∀ (cfg : Configuration) (p : String),
      getMatchingAllowedDirectory cfg p = Option.none ↔
        isWithinAllowedDirectories cfg p = false) ∧
    (∀ (cfg : Configuration) (p m : String),
      getMatchingAllowedDirectory cfg p = some m →
        m ∈ cfg.allowedDirectories ∧ (p = m ∨ strStartsWith p (m ++ "/") = true) ∧
        ∀ d ∈ cfg.allowedDirectories, (p = d ∨ strStartsWith p (d ++ "/") = true) →
          d.length ≤ m.length) ∧
    isWithinAllowedDirectories boundaryConfig "/a/b" = true ∧
    isWithinAllowedDirectories boundaryConfig "/a/b/c" = true ∧
    isWithinAllowedDirectories boundaryConfig "/a/bc" = false ∧
    getMatchingAllowedDirectory nestedConfig "/a/b/c/file" = some "/a/b/c" := by
  refine ⟨?_, getMatchingAllowedDirectory_none_iff, ?_, by decide, by decide, by decide,
    by decide⟩
  · intro cfg p
    simp only [isWithinAllowedDirectories, List.any_eq_true, Bool.or_eq_true,
      decide_eq_true_eq]
  · intro cfg p m h
    simp only [getMatchingAllowedDirectory] at h
    have hmax := sortByLenDesc_head_max _ _ h
    have hm := List.mem_filter.mp hmax.1
    refine ⟨hm.1, ?_, ?_⟩
    · have := hm.2
      simp only [Bool.or_eq_true, decide_eq_true_eq] at this
      exact this
    · intro d hd hmatch
      apply hmax.2
      apply List.mem_filter.mpr
      refine ⟨hd, ?_⟩
      simp only [Bool.or_eq_true, decide_eq_true_eq]
      exact hmatch

/-- C6 witness: in the nested configuration the longest-prefix property
is applied at a concrete path. -/
theorem allowed_directory_scope_spec_witness :
    "/a".length ≤ "/a/b/c".length :=
  (allowed_directory_scope_spec.2.2.1 nestedConfig "/a/b/c/file" "/a/b/c"
    (by decide)).2.2 "/a" (by decide) (by decide)

/-- C4: `validatePath` succeeds exactly when the path is absolute, in
scope, and unprotected; on failure its reason reflects the first
failing check in the order absoluteness, scope, protection; on success
the matched directory is the one `getMatchingAllowedDirectory`
returns. -/
theorem validatePath_spec :
    ∀ (cfg : Configuration) (p : String),
      ((validatePath cfg p).valid = true ↔
        (isAbsolutePath p = true ∧ (getMatchingAllowedDirectory cfg p).isSome = true ∧
          isProtected cfg p = false)) ∧
      (isAbsolutePath p = false →
        (validatePath cfg p).reason = some "Only absolute paths are accepted") ∧
      (isAbsolutePath p = true → getMatchingAllowedDirectory cfg p = Option.none →
        (validatePath cfg p).reason = some "Path is outside allowed directories") ∧
      (isAbsolutePath p = true →
        (getMatchingAllowedDirectory cfg p).isSome = true → isProtected cfg p = true →
        (validatePath cfg p).reason = some "Path matches protected pattern") ∧
      ((validatePath cfg p).valid = true →
        (validatePath cfg p).matchedDirectory = getMatchingAllowedDirectory cfg p) := by
  intro cfg p
  simp only [validatePath]
  cases habs : isAbsolutePath p with
  | false => simp
  | true =>
    cases hdir : getMatchingAllowedDirectory cfg p with
    | none => simp
    | some m =>
      cases hprot : isProtected cfg p with
      | false => simp
      | true => simp

/-- C4 witness: the protection reason at a concrete absolute, in-scope,
protected path. -/
theorem validatePath_spec_witness :
    (validatePath exampleConfig "/tmp/proj/.git").reason =
      some "Path matches protected pattern" :=
  (validatePath_spec exampleConfig "/tmp/proj/.git").2.2.2.1 (by decide) (by decide)
    (by decide)

/-- Whether a failed validation's reason is a protection reason
(`reason?.includes('protected') === true`). -/
def reasonIsProtected (v : ValidationResult) : Bool :=
  (v.reason.map (fun r => strIncludes r "protected")).getD false

theorem validateBatchAux_spec (cfg : Configuration) (paths : List String) :
    validateBatchAux cfg paths =
      (paths.filter (fun p => (validatePath cfg p).valid),
       (paths.filter (fun p =>
          !(validatePath cfg p).valid && !reasonIsProtected (validatePath cfg p))).map
         (fun p => (p, ((validatePath cfg p).reason).getD "Invalid path")),
       (paths.filter (fun p =>
          !(validatePath cfg p).valid && reasonIsProtected (validatePath cfg p))).map
         (fun p => (p, ((validatePath cfg p).reason).getD "Invalid path"))) := by
  induction paths with
  | nil => rfl
  | cons p ps ih =>
    simp only [validateBatchAux, ih, List.filter_cons]
    cases hv : (validatePath cfg p).valid with
    | true => simp [hv]
    | false =>
      cases hr : (validatePath cfg p).reason with
      | none => simp [hv, hr, reasonIsProtected]
      | some r =>
        cases hpr : strIncludes r "protected" with
        | true => simp [hv, hr, hpr, reasonIsProtected]
        | false => simp [hv, hr, hpr, reasonIsProtected]

/-- C5: `validateBatch` partitions its input by per-path verdict —
successes to `validPaths`, protection-reason failures to
`protectedPaths`, all other failures to `invalidPaths` — in input
order, each input path landing in exactly one partition, and the batch
is valid exactly when both failure partitions are empty. -/
theorem validateBatch_partition :
    ∀ (cfg : Configuration) (paths : List String),
      (validateBatch cfg paths).validPaths =
        paths.filter (fun p => (validatePath cfg p).valid) ∧
      (validateBatch cfg paths).invalidPaths =
        (paths.filter (fun p =>
           !(validatePath cfg p).valid && !reasonIsProtected (validatePath cfg p))).map
          (fun p => (p, ((validatePath cfg p).reason).getD "Invalid path")) ∧
      (validateBatch cfg paths).protectedPaths =
        (paths.filter (fun p =>
           !(validatePath cfg p).valid && reasonIsProtected (validatePath cfg p))).map
          (fun p => (p, ((validatePath cfg p).reason).getD "Invalid path")) ∧
      ((validateBatch cfg paths).valid = true ↔
        (validateBatch cfg paths).invalidPaths = [] ∧
        (validateBatch cfg paths).protectedPaths = []) ∧
      (∀ p ∈ paths,
        (p ∈ (validateBatch cfg paths).validPaths ∧
         p ∉ ((validateBatch cfg paths).invalidPaths).map Prod.fst ∧
         p ∉ ((validateBatch cfg paths).protectedPaths).map Prod.fst) ∨
        (p ∉ (validateBatch cfg paths).validPaths ∧
         p ∈ ((validateBatch cfg paths).invalidPaths).map Prod.fst ∧
         p ∉ ((validateBatch cfg paths).protectedPaths).map Prod.fst) ∨
        (p ∉ (validateBatch cfg paths).validPaths ∧
         p ∉ ((validateBatch cfg paths).invalidPaths).map Prod.fst ∧
         p ∈ ((validateBatch cfg paths).protectedPaths).map Prod.fst)) := by
  intro cfg paths
  have hvp : (validateBatch cfg paths).validPaths =
      paths.filter (fun p => (validatePath cfg p).valid) := by
    simp only [validateBatch, validateBatchAux_spec]
  have hip : (validateBatch cfg paths).invalidPaths =
      (paths.filter (fun p =>
         !(validatePath cfg p).valid && !reasonIsProtected (validatePath cfg p))).map
        (fun p => (p, ((validatePath cfg p).reason).getD "Invalid path")) := by
    simp only [validateBatch, validateBatchAux_spec]
  have hpp : (validateBatch cfg paths).protectedPaths =
      (paths.filter (fun p =>
         !(validatePath cfg p).valid && reasonIsProtected (validatePath cfg p))).map
        (fun p => (p, ((validatePath cfg p).reason).getD "Invalid path")) := by
    simp only [validateBatch, validateBatchAux_spec]
  refine ⟨hvp, hip, hpp, ?_, ?_⟩
  · rw [hip, hpp]
    simp only [validateBatch, validateBatchAux_spec]
    simp [List.isEmpty_iff]
  · intro p hp
    rw [hvp, hip, hpp]
    have hfst : ∀ (l : List String),
        (l.map (fun q => (q, ((validatePath cfg q).reason).getD "Invalid path"))).map
            Prod.fst = l := by
      intro l; induction l with
      | nil => rfl
      | cons x xs ihl => simp [ihl]
    cases hv : (validatePath cfg p).valid with
    | true =>
      left
      refine ⟨List.mem_filter.mpr ⟨hp, by simp [hv]⟩, ?_, ?_⟩ <;>
        · rw [hfst]
          intro hmem
          have := (List.mem_filter.mp hmem).2
          simp [hv] at this
    | false =>
      cases hpr : reasonIsProtected (validatePath cfg p) with
      | false =>
        right; left
        refine ⟨?_, ?_, ?_⟩
        · intro hmem
          have := (List.mem_filter.mp hmem).2
          simp [hv] at this
        · rw [hfst]
          exact List.mem_filter.mpr ⟨hp, by simp [hv, hpr]⟩
        · rw [hfst]
          intro hmem
          have := (List.mem_filter.mp hmem).2
          simp [hv, hpr] at this
      | true =>
        right; right
        refine ⟨?_, ?_, ?_⟩
        · intro hmem
          have := (List.mem_filter.mp hmem).2
          simp [hv] at this
        · rw [hfst]
          intro hmem
          have := (List.mem_filter.mp hmem).2
          simp [hv, hpr] at this
        · rw [hfst]
          exact List.mem_filter.mpr ⟨hp, by simp [hv, hpr]⟩

/-- C5 witness: the partition at a concrete mixed batch. -/
theorem validateBatch_partition_witness :
    "/tmp/proj/ok.txt" ∈
      (validateBatch exampleConfig
        ["/tmp/proj/ok.txt", "relative.txt", "/tmp/proj/.git/HEAD"]).validPaths ∧
    "/tmp/proj/.git/HEAD" ∈
      ((validateBatch exampleConfig
        ["/tmp/proj/ok.txt", "relative.txt", "/tmp/proj/.git/HEAD"]).protectedPaths).map
        Prod.fst := by
  have h := validateBatch_partition exampleConfig
    ["/tmp/proj/ok.txt", "relative.txt", "/tmp/proj/.git/HEAD"]
  rcases (h.2.2.2.2 "/tmp/proj/.git/HEAD" (by decide)) with h3 | h3 | h3
  · exact absurd (h3.1) (by rw [h.1]; decide)
  · exact absurd (h3.2.1) (by rw [h.2.1]; decide)
  · exact ⟨by rw [h.1]; decide, h3.2.2⟩

/-- C2: when the batch is within the size limit but fails validation,
`deleteBatch` cancels the whole batch: the filesystem is untouched, no
filesystem access happens, `deleted` and `failed` are empty, `rejected`
is the invalid entries followed by the protected entries, `cancelled`
is set, and the reason states the batch contains protected or invalid
paths. -/
theorem deleteBatch_cancel_on_invalid_validation :
    ∀ (cfg : Configuration) (fs : FileSystem) (paths : List String),
      paths.length ≤ cfg.maxBatchSize →
      (validateBatch cfg paths).valid = false →
      deleteBatch cfg fs paths =
        { fs := fs,
          result :=
            { deleted := [], failed := [],
              rejected := (validateBatch cfg paths).invalidPaths ++
                (validateBatch cfg paths).protectedPaths,
              cancelled := some true,
              reason := some "Batch contains protected or invalid paths" },
          fsOps := [], logs := [] } := by
  intro cfg fs paths hlen hval
  simp only [deleteBatch]
  rw [if_neg (by omega)]
  simp [hval]

/-- C2 witness: a concrete batch with one protected member cancels
without touching the filesystem. -/
theorem deleteBatch_cancel_on_invalid_validation_witness :
    deleteBatch exampleConfig ["/tmp/proj/ok.txt"]
        ["/tmp/proj/ok.txt", "/tmp/proj/.git/HEAD"] =
      { fs := ["/tmp/proj/ok.txt"],
        result :=
          { deleted := [], failed := [],
            rejected :=
              (validateBatch exampleConfig
                ["/tmp/proj/ok.txt", "/tmp/proj/.git/HEAD"]).invalidPaths ++
              (validateBatch exampleConfig
                ["/tmp/proj/ok.txt", "/tmp/proj/.git/HEAD"]).protectedPaths,
            cancelled := some true,
            reason := some "Batch contains protected or invalid paths" },
        fsOps := [], logs := [] } :=
  deleteBatch_cancel_on_invalid_validation exampleConfig ["/tmp/proj/ok.txt"]
    ["/tmp/proj/ok.txt", "/tmp/proj/.git/HEAD"] (by decide) (by decide)

/-- C3: when the batch exceeds the configured maximum size,
`deleteBatch` cancels immediately regardless of path validity: every
input path is reported in `rejected` (with the per-path size-limit
reason), `cancelled` is set with reason "Batch size limit exceeded",
`deleted` and `failed` are empty, and no filesystem access occurs. -/
theorem deleteBatch_cancel_on_size_limit :
    ∀ (cfg : Configuration) (fs : FileSystem) (paths : List String),
      paths.length > cfg.maxBatchSize →
      deleteBatch cfg fs paths =
        { fs := fs,
          result :=
            { deleted := [], failed := [],
              rejected := paths.map (fun p =>
                (p, "Batch size exceeds limit (" ++ toString cfg.maxBatchSize ++ ")")),
              cancelled := some true, reason := some "Batch size limit exceeded" },
          fsOps := [], logs := [] } ∧
      ((deleteBatch cfg fs paths).result.rejected).map Prod.fst = paths := by
  intro cfg fs paths h
  have heq : deleteBatch cfg fs paths =
      { fs := fs,
        result :=
          { deleted := [], failed := [],
            rejected := paths.map (fun p =>
              (p, "Batch size exceeds limit (" ++ toString cfg.maxBatchSize ++ ")")),
            cancelled := some true, reason := some "Batch size limit exceeded" },
        fsOps := [], logs := [] } := by
    simp only [deleteBatch]
    rw [if_pos h]
  refine ⟨heq, ?_⟩
  rw [heq]
  show ((paths.map (fun p =>
    (p, "Batch size exceeds limit (" ++ toString cfg.maxBatchSize ++ ")"))).map
      Prod.fst) = paths
  clear heq h
  induction paths with
  | nil => rfl
  | cons x xs ihl => simpa using ihl

/-- C3 witness: an over-limit batch of invalid and valid paths alike is
fully rejected. -/
theorem deleteBatch_cancel_on_size_limit_witness :
    ((deleteBatch
        { allowedDirectories := ["/tmp/proj"], protectedPatterns := [".git"],
          logLevel := LogLevel.info, maxBatchSize := 1,
          maxLogFileSize := Option.none, maxLogFiles := Option.none }
        [] ["/tmp/proj/a.txt", "relative.txt"]).result.rejected).map Prod.fst =
      ["/tmp/proj/a.txt", "relative.txt"] :=
  (deleteBatch_cancel_on_size_limit
    { allowedDirectories := ["/tmp/proj"], protectedPatterns := [".git"],
      logLevel := LogLevel.info, maxBatchSize := 1,
      maxLogFileSize := Option.none, maxLogFiles := Option.none }
    [] ["/tmp/proj/a.txt", "relative.txt"] (by decide)).2

theorem deleteFile_fs_mem (cfg : Configuration) (fs : FileSystem) (q x : String) :
    x ∈ (deleteFile cfg fs q).fs → x ∈ fs := by
  intro hx
  simp only [deleteFile] at hx
  split at hx
  · exact hx
  · split at hx
    · exact hx
    · exact List.mem_of_mem_filter hx

theorem runBatch_nonexistent (cfg : Configuration) :
    ∀ (l : List String) (fs : FileSystem) (p : String),
      (validatePath cfg p).valid = true → p ∉ fs →
      (p ∈ l → (p, "File not found") ∈ (runBatch cfg fs l).2.2.1) ∧
      p ∉ (runBatch cfg fs l).2.1 := by
  intro l
  induction l with
  | nil =>
    intro fs p _ _
    exact ⟨fun h => absurd h (List.not_mem_nil p), List.not_mem_nil p⟩
  | cons q rest ih =>
    intro fs p hval hmem
    have hnotin : p ∉ (deleteFile cfg fs q).fs :=
      fun hc => hmem (deleteFile_fs_mem cfg fs q p hc)
    have ihq := ih (deleteFile cfg fs q).fs p hval hnotin
    by_cases hpq : p = q
    · subst hpq
      have hdf : deleteFile cfg fs p =
          { fs := fs,
            res := { success := false, path := p, error := some "File not found",
                     reason := Option.none },
            fsOps := [FsOp.existsCheck p], logs := [(p, LogResult.failed)] } := by
        have hex : fsExists fs p = false := by
          simp only [fsExists]
          exact decide_eq_false hmem
        simp [deleteFile, hval, hex]
      constructor
      · intro _
        simp only [runBatch, hdf]
        simp
      · simp only [runBatch, hdf]
        simp only [Bool.false_eq_true, if_false]
        rw [hdf] at ihq
        exact ihq.2
    · constructor
      · intro hpl
        have hpl' : p ∈ rest := by
          rcases List.mem_cons.mp hpl with h | h
          · exact absurd h hpq
          · exact h
        have hin := ihq.1 hpl'
        simp only [runBatch]
        split
        · exact hin
        · exact List.mem_cons_of_mem _ hin
      · intro hdel
        simp only [runBatch] at hdel
        split at hdel
        · rcases List.mem_cons.mp hdel with h | h
          · exact hpq h
          · exact ihq.2 h
        · exact ihq.2 hdel

theorem validateBatch_all_valid (cfg : Configuration) (paths : List String)
    (h : (validateBatch cfg paths).valid = true) :
    (validateBatch cfg paths).validPaths = paths ∧
    ∀ p ∈ paths, (validatePath cfg p).valid = true := by
  have hvp : (validateBatch cfg paths).validPaths =
      paths.filter (fun p => (validatePath cfg p).valid) := by
    simp only [validateBatch, validateBatchAux_spec]
  simp only [validateBatch, validateBatchAux_spec, Bool.and_eq_true,
    List.isEmpty_iff, List.map_eq_nil_iff] at h
  have hall : ∀ p ∈ paths, (validatePath cfg p).valid = true := by
    intro p hp
    by_contra hc
    have hvb : (validatePath cfg p).valid = false := by
      cases hvv : (validatePath cfg p).valid
      · rfl
      · exact absurd hvv hc
    cases hpr : reasonIsProtected (validatePath cfg p) with
    | false =>
      have hmem : p ∈ paths.filter (fun p =>
          !(validatePath cfg p).valid && !reasonIsProtected (validatePath cfg p)) :=
        List.mem_filter.mpr ⟨hp, by simp [hvb, hpr]⟩
      rw [h.1] at hmem
      exact (List.not_mem_nil p) hmem
    | true =>
      have hmem : p ∈ paths.filter (fun p =>
          !(validatePath cfg p).valid && reasonIsProtected (validatePath cfg p)) :=
        List.mem_filter.mpr ⟨hp, by simp [hvb, hpr]⟩
      rw [h.2] at hmem
      exact (List.not_mem_nil p) hmem
  refine ⟨?_, hall⟩
  rw [hvp]
  exact List.filter_eq_self.mpr (fun p hp => by simp [hall p hp])

/-- C7: a validated path that does not exist on disk is a `failed`
outcome, never `rejected`: a single `deleteFile` or `deleteDirectory`
returns `success = false` with an error field and no reason field and
logs a failed outcome; the execution stage of `deleteBatch` classifies
such a path into `failed` and leaves `rejected` empty. -/
theorem nonexistent_target_is_failed :
    (∀ (cfg : Configuration) (fs : FileSystem) (p : String),
      (validatePath cfg p).valid = true → p ∉ fs →
      deleteFile cfg fs p =
        { fs := fs,
          res := { success := false, path := p, error := some "File not found",
                   reason := Option.none },
          fsOps := [FsOp.existsCheck p], logs := [(p, LogResult.failed)] }) ∧
    (∀ (cfg : Configuration) (fs : FileSystem) (p : String),
      (validatePath cfg p).valid = true → p ∉ fs →
      deleteDirectory cfg fs p =
        { fs := fs,
          res := { success := false, path := p, error := some "Directory not found",
                   reason := Option.none },
          fsOps := [FsOp.existsCheck p], logs := [(p, LogResult.failed)] }) ∧
    (∀ (cfg : Configuration) (fs : FileSystem) (paths : List String) (p : String),
      paths.length ≤ cfg.maxBatchSize →
      (validateBatch cfg paths).valid = true →
      p ∈ paths → p ∉ fs →
      (p, "File not found") ∈ (deleteBatch cfg fs paths).result.failed ∧
      p ∉ (deleteBatch cfg fs paths).result.deleted ∧
      (deleteBatch cfg fs paths).result.rejected = []) := by
  refine ⟨?_, ?_, ?_⟩
  · intro cfg fs p hval hmem
    have hex : fsExists fs p = false := by
      simp only [fsExists]; exact decide_eq_false hmem
    simp [deleteFile, hval, hex]
  · intro cfg fs p hval hmem
    have hex : fsExists fs p = false := by
      simp only [fsExists]; exact decide_eq_false hmem
    simp [deleteDirectory, hval, hex]
  · intro cfg fs paths p hlen hval hp hmem
    have hav := validateBatch_all_valid cfg paths hval
    have hrun := runBatch_nonexistent cfg paths fs p (hav.2 p hp) hmem
    have hdb : deleteBatch cfg fs paths =
        { fs := (runBatch cfg fs paths).1,
          result :=
            { deleted := (runBatch cfg fs paths).2.1,
              failed := (runBatch cfg fs paths).2.2.1,
              rejected := [], cancelled := Option.none, reason := Option.none },
          fsOps := (runBatch cfg fs paths).2.2.2.1,
          logs := (runBatch cfg fs paths).2.2.2.2 } := by
      simp only [deleteBatch]
      rw [if_neg (by omega)]
      simp only [hval, Bool.not_true, Bool.false_eq_true, if_false, hav.1]
    rw [hdb]
    exact ⟨hrun.1 hp, hrun.2, rfl⟩

/-- C7 witness: a concrete validated but absent path fails with "File
not found". -/
theorem nonexistent_target_is_failed_witness :
    deleteFile exampleConfig [] "/tmp/proj/gone.txt" =
      { fs := [],
        res := { success := false, path := "/tmp/proj/gone.txt",
                 error := some "File not found", reason := Option.none },
        fsOps := [FsOp.existsCheck "/tmp/proj/gone.txt"],
        logs := [("/tmp/proj/gone.txt", LogResult.failed)] } :=
  nonexistent_target_is_failed.1 exampleConfig [] "/tmp/proj/gone.txt" (by decide)
    (by decide)

/-- C8: an entry's level is error for `failed` results, warn for
`rejected`, debug for a `DEBUG:`-tagged reason, info otherwise; with
logging enabled, the entry is dropped (in-memory tail untouched, no
file write issued) exactly when its level is below the configured
minimum; a configured minimum of `none` suppresses all logging and
skips log-directory initialization. -/
theorem log_level_filtering_spec :
    (∀ e : AuditLog, e.result = LogResult.failed →
      entryLevelIndex e = configLevelIndex LogLevel.error) ∧
    (∀ e : AuditLog, e.result = LogResult.rejected →
      entryLevelIndex e = configLevelIndex LogLevel.warn) ∧
    (∀ e : AuditLog, e.result = LogResult.success →
      ((e.reason.map (fun r => strStartsWith r "DEBUG:")).getD false = true →
        entryLevelIndex e = configLevelIndex LogLevel.debug) ∧
      ((e.reason.map (fun r => strStartsWith r "DEBUG:")).getD false = false →
        entryLevelIndex e = configLevelIndex LogLevel.info)) ∧
    (∀ (cfg : Configuration) (memory : List AuditLog) (e : AuditLog),
      cfg.logLevel ≠ LogLevel.none →
      (((writeLogEntry cfg memory e).2 = false ↔
          entryLevelIndex e < configLevelIndex cfg.logLevel) ∧
        ((writeLogEntry cfg memory e).2 = false →
          (writeLogEntry cfg memory e).1 = memory))) ∧
    (∀ (cfg : Configuration) (memory : List AuditLog) (e : AuditLog),
      cfg.logLevel = LogLevel.none →
      writeLogEntry cfg memory e = (memory, false)) ∧
    (∀ cfg : Configuration,
      constructorInitializesLogDirectory cfg = false ↔
        cfg.logLevel = LogLevel.none) := by
  refine ⟨?_, ?_, ?_, ?_, ?_, ?_⟩
  · intro e h; simp [entryLevelIndex, h, configLevelIndex]
  · intro e h; simp [entryLevelIndex, h, configLevelIndex]
  · intro e h
    constructor <;> intro hd <;> simp [entryLevelIndex, h, hd, configLevelIndex]
  · intro cfg memory e hne
    constructor
    · simp only [writeLogEntry, shouldLog]
      rw [if_neg hne]
      by_cases hs : entryLevelIndex e ≥ configLevelIndex cfg.logLevel
      · rw [if_neg (by simp [hs])]
        simp only []
        constructor
        · intro hc; exact absurd hc (by simp)
        · intro hc; omega
      · rw [if_pos (by simp [hs])]
        simp only []
        constructor
        · intro _; omega
        · intro _; exact trivial
    · intro hfalse
      simp only [writeLogEntry, shouldLog] at hfalse ⊢
      rw [if_neg hne] at hfalse ⊢
      by_cases hs : entryLevelIndex e ≥ configLevelIndex cfg.logLevel
      · rw [if_neg (by simp [hs])] at hfalse
        exact absurd hfalse (by simp)
      · rw [if_pos (by simp [hs])]
  · intro cfg memory e h
    simp [writeLogEntry, h]
  · intro cfg
    simp [constructorInitializesLogDirectory]

/-- C8 witness: an info-level success entry is dropped under a `warn`
minimum. -/
theorem log_level_filtering_spec_witness :
    (writeLogEntry
        { allowedDirectories := [], protectedPatterns := [],
          logLevel := LogLevel.warn, maxBatchSize := 1,
          maxLogFileSize := Option.none, maxLogFiles := Option.none }
        [] { operation := "delete", paths := Option.none,
             result := LogResult.success, reason := Option.none }).2 = false :=
  (log_level_filtering_spec.2.2.2.1
    { allowedDirectories := [], protectedPatterns := [],
      logLevel := LogLevel.warn, maxBatchSize := 1,
      maxLogFileSize := Option.none, maxLogFiles := Option.none }
    [] { operation := "delete", paths := Option.none,
         result := LogResult.success, reason := Option.none }
    (by decide)).1.mpr (by decide)

/-- The protection-cache invariant: every stored key lies within the
allowed directories and every stored value is the pattern evaluation of
its exact key. -/
def CacheInv (cfg : Configuration) (m : Cache) : Prop :=
  ∀ kv ∈ m, isWithinAllowedDirectories cfg kv.1 = true ∧
    kv.2 = evalProtectedPatterns cfg kv.1

theorem cacheGet_some (m : Cache) (p : String) (b : Bool)
    (h : cacheGet m p = some b) : ∃ kv ∈ m, kv.1 = p ∧ kv.2 = b := by
  simp only [cacheGet, Option.map_eq_some'] at h
  obtain ⟨kv, hfind, hb⟩ := h
  refine ⟨kv, List.mem_of_find?_eq_some hfind, ?_, hb⟩
  have := List.find?_some hfind
  simpa using this

/-- C10: the decision-cache invariant is preserved by `isProtected`
(which never writes on the fail-closed branch), by cache invalidation
and by disposal; and under the invariant a cached decision agrees with
what a fresh evaluation of the same input would produce. -/
theorem pattern_cache_invariant :
    ∀ (cfg : Configuration) (m : Cache) (p q : String),
      CacheInv cfg m →
      CacheInv cfg (isProtectedCached cfg m p).2 ∧
      CacheInv cfg (invalidateCache m q) ∧
      CacheInv cfg (disposeCache m) ∧
      (isProtectedCached cfg m p).1 = isProtected cfg p ∧
      (isWithinAllowedDirectories cfg p = false →
        isProtectedCached cfg m p = (true, m)) := by
  intro cfg m p q hinv
  have hinval : CacheInv cfg (invalidateCache m q) := by
    intro kv hkv
    exact hinv kv (List.mem_of_mem_filter hkv)
  have hdisp : CacheInv cfg (disposeCache m) := by
    intro kv hkv
    exact absurd hkv (List.not_mem_nil kv)
  cases hw : isWithinAllowedDirectories cfg p with
  | false =>
    have heq : isProtectedCached cfg m p = (true, m) := by
      simp [isProtectedCached, hw]
    refine ⟨?_, hinval, hdisp, ?_, fun _ => heq⟩
    · rw [heq]; exact hinv
    · rw [heq]; simp [isProtected, hw]
  | true =>
    refine ⟨?_, hinval, hdisp, ?_, by simp [hw]⟩
    · cases hg : cacheGet m p with
      | some b =>
        have heq : (isProtectedCached cfg m p).2 = m := by
          simp [isProtectedCached, hw, hg]
        rw [heq]; exact hinv
      | none =>
        have heq : (isProtectedCached cfg m p).2 =
            cacheSet m p (evalProtectedPatterns cfg p) := by
          simp [isProtectedCached, hw, hg]
        rw [heq]
        intro kv hkv
        simp only [cacheSet] at hkv
        split at hkv
        · rcases List.mem_map.mp hkv with ⟨a, ha, hfa⟩
          by_cases hap : a.1 = p
          · rw [if_pos hap] at hfa
            rw [← hfa]
            exact ⟨hw, rfl⟩
          · rw [if_neg hap] at hfa
            rw [← hfa]
            exact hinv a ha
        · rcases List.mem_append.mp hkv with h | h
          · exact hinv kv h
          · rcases List.mem_singleton.mp h with rfl
            exact ⟨hw, rfl⟩
    · cases hg : cacheGet m p with
      | some b =>
        have heq : (isProtectedCached cfg m p).1 = b := by
          simp [isProtectedCached, hw, hg]
        rw [heq]
        obtain ⟨kv, hkv, hk, hv⟩ := cacheGet_some m p b hg
        have := (hinv kv hkv).2
        rw [hv, hk] at this
        rw [this]
        simp [isProtected, hw]
      | none =>
        have heq : (isProtectedCached cfg m p).1 = evalProtectedPatterns cfg p := by
          simp [isProtectedCached, hw, hg]
        rw [heq]
        simp [isProtected, hw]

/-- C10 witness: applied to a concrete configuration, an empty cache
and concrete paths. -/
theorem pattern_cache_invariant_witness :
    (isProtectedCached exampleConfig [] "/tmp/proj/readme.md").1 =
      isProtected exampleConfig "/tmp/proj/readme.md" :=
  (pattern_cache_invariant exampleConfig [] "/tmp/proj/readme.md" "/etc"
    (by intro kv hkv; exact absurd hkv (List.not_mem_nil kv))).2.2.2.1

theorem length_insertMtime (f : LogFile) (l : List LogFile) :
    (insertMtime f l).length = l.length + 1 := by
  induction l with
  | nil => rfl
  | cons g gs ih =>
    simp only [insertMtime]
    split <;> simp [ih]

theorem length_sortByMtime (l : List LogFile) :
    (sortByMtime l).length = l.length := by
  induction l with
  | nil => rfl
  | cons f fs ih => simp [sortByMtime, length_insertMtime, ih]

theorem mem_insertMtime {a f : LogFile} {l : List LogFile} :
    a ∈ insertMtime f l ↔ a = f ∨ a ∈ l := by
  induction l with
  | nil => simp [insertMtime]
  | cons g gs ih =>
    simp only [insertMtime]
    split <;> simp [ih, or_left_comm]

theorem mem_sortByMtime {a : LogFile} {l : List LogFile} :
    a ∈ sortByMtime l ↔ a ∈ l := by
  induction l with
  | nil => simp [sortByMtime]
  | cons f fs ih => simp [sortByMtime, mem_insertMtime, ih]

theorem cleanup_files_subset (cfg : Configuration) (st : LogState) :
    ∀ f ∈ (cleanupOldLogFiles cfg st).files, f ∈ st.files := by
  intro f hf
  simp only [cleanupOldLogFiles] at hf
  split at hf
  · exact hf
  · exact mem_sortByMtime.mp (List.drop_subset _ _ hf)

theorem cleanup_length (cfg : Configuration) (st : LogState) :
    (cleanupOldLogFiles cfg st).files.length ≤ maxLogFilesOf cfg := by
  simp only [cleanupOldLogFiles]
  split
  · assumption
  · simp only [List.length_drop, length_sortByMtime]
    omega

theorem cleanup_under_limit (cfg : Configuration) (st : LogState)
    (h : st.files.length ≤ maxLogFilesOf cfg) :
    cleanupOldLogFiles cfg st = st := by
  simp only [cleanupOldLogFiles]
  rw [if_pos h]

theorem cleanup_currentLogFile (cfg : Configuration) (st : LogState) :
    (cleanupOldLogFiles cfg st).currentLogFile = st.currentLogFile := by
  simp only [cleanupOldLogFiles]; split <;> rfl

theorem cleanup_currentLogFileSize (cfg : Configuration) (st : LogState) :
    (cleanupOldLogFiles cfg st).currentLogFileSize = st.currentLogFileSize := by
  simp only [cleanupOldLogFiles]; split <;> rfl

theorem cleanup_nextId (cfg : Configuration) (st : LogState) :
    (cleanupOldLogFiles cfg st).nextId = st.nextId := by
  simp only [cleanupOldLogFiles]; split <;> rfl

/-- C9: when the active log file exists and the entry's serialized size
would overflow the configured maximum file size, `writeToFile` rotates
before appending: the entry lands in a newly created, uniquely named
file (never the old one), the size counter restarts at exactly the
entry's size, retention cleanup has run (bounding the retained files by
the configured maximum plus the one fresh active file, and deleting
nothing while at or under the limit), no pre-existing file's content
changes, and a non-rotating append to an existing active file never
changes the number of files. -/
theorem log_rotation_spec :
    ∀ (cfg : Configuration) (st : LogState) (entrySize i : Nat),
      st.currentLogFile = some i →
      (∀ f ∈ st.files, f.id < st.nextId) →
      i < st.nextId →
      shouldRotateLog cfg st entrySize = true →
      ((writeToFile cfg st entrySize).currentLogFile = some st.nextId ∧
       (writeToFile cfg st entrySize).currentLogFile ≠ st.currentLogFile ∧
       (∀ f ∈ st.files, f.id ≠ st.nextId) ∧
       (writeToFile cfg st entrySize).currentLogFileSize = entrySize ∧
       (∃ t, { id := st.nextId, mtime := t, size := entrySize : LogFile } ∈
          (writeToFile cfg st entrySize).files) ∧
       (∀ f ∈ (writeToFile cfg st entrySize).files, f.id ≠ st.nextId → f ∈ st.files) ∧
       (writeToFile cfg st entrySize).files.length ≤ maxLogFilesOf cfg + 1 ∧
       (st.files.length ≤ maxLogFilesOf cfg →
         ∀ g ∈ st.files, g ∈ (writeToFile cfg st entrySize).files)) ∧
      (∀ (st' : LogState) (e' j : Nat),
        st'.currentLogFile = some j →
        shouldRotateLog cfg st' e' = false →
        st'.files.any (fun f => f.id = j) = true →
        (writeToFile cfg st' e').files.length = st'.files.length) := by
  intro cfg st entrySize i hcur hfresh hi hrot
  have hne : ¬(st.currentLogFile = Option.none) := by rw [hcur]; simp
  have hrotEq : rotateLogFile cfg st =
      cleanupOldLogFiles cfg
        { st with currentLogFile := some st.nextId, nextId := st.nextId + 1,
                  currentLogFileSize := 0 } := by
    simp only [rotateLogFile, hcur]
  have hr2cur : (rotateLogFile cfg st).currentLogFile = some st.nextId := by
    rw [hrotEq, cleanup_currentLogFile]
  have hr2size : (rotateLogFile cfg st).currentLogFileSize = 0 := by
    rw [hrotEq, cleanup_currentLogFileSize]
  have hr2sub : ∀ f ∈ (rotateLogFile cfg st).files, f ∈ st.files := by
    intro f hf
    rw [hrotEq] at hf
    exact cleanup_files_subset cfg
      { st with currentLogFile := some st.nextId, nextId := st.nextId + 1,
                currentLogFileSize := 0 } f hf
  have hany : ((rotateLogFile cfg st).files.any (fun f => f.id = st.nextId)) = false := by
    apply List.any_eq_false.mpr
    intro f hf
    have := hfresh f (hr2sub f hf)
    simp only [decide_eq_true_eq]
    omega
  have happ : appendToFile (rotateLogFile cfg st) st.nextId entrySize =
      { rotateLogFile cfg st with
        files := (rotateLogFile cfg st).files ++
          [{ id := st.nextId, mtime := (rotateLogFile cfg st).clock,
             size := entrySize }],
        clock := (rotateLogFile cfg st).clock + 1 } := by
    simp only [appendToFile, hany, Bool.false_eq_true, if_false]
  have hwrite : writeToFile cfg st entrySize =
      { appendToFile (rotateLogFile cfg st) st.nextId entrySize with
        currentLogFileSize := (rotateLogFile cfg st).currentLogFileSize + entrySize } := by
    simp only [writeToFile]
    rw [if_neg hne, if_pos hrot, hr2cur]
  have hfiles : (writeToFile cfg st entrySize).files =
      (rotateLogFile cfg st).files ++
        [{ id := st.nextId, mtime := (rotateLogFile cfg st).clock,
           size := entrySize }] := by
    rw [hwrite, happ]
  constructor
  · refine ⟨?_, ?_, ?_, ?_, ?_, ?_, ?_, ?_⟩
    · rw [hwrite, happ]
      exact hr2cur
    · rw [hwrite, happ, hr2cur, hcur]
      intro hc
      injection hc with hc'
      omega
    · intro f hf
      have := hfresh f hf
      omega
    · rw [hwrite]
      simp [hr2size]
    · refine ⟨(rotateLogFile cfg st).clock, ?_⟩
      rw [hfiles]
      exact List.mem_append_right _ (List.mem_singleton.mpr rfl)
    · intro f hf hid
      rw [hfiles] at hf
      rcases List.mem_append.mp hf with h | h
      · exact hr2sub f h
      · rcases List.mem_singleton.mp h with rfl
        exact absurd rfl hid
    · rw [hfiles]
      simp only [List.length_append, List.length_singleton]
      have : (rotateLogFile cfg st).files.length ≤ maxLogFilesOf cfg := by
        rw [hrotEq]
        exact cleanup_length cfg _
      omega
    · intro hunder g hg
      rw [hfiles, hrotEq, cleanup_under_limit cfg _ (by simpa using hunder)]
      exact List.mem_append_left _ hg
  · intro st' e' j hcur' hrot' hany'
    have hne' : ¬(st'.currentLogFile = Option.none) := by rw [hcur']; simp
    have hw' : writeToFile cfg st' e' =
        { appendToFile st' j e' with
          currentLogFileSize := st'.currentLogFileSize + e' } := by
      simp only [writeToFile]
      rw [if_neg hne', if_neg (by simp [hrot']), hcur']
    rw [hw']
    simp only [appendToFile, hany', if_true]
    simp [List.length_map]

/-- C9 witness: a concrete full file rotates and the directory stays
within the retention bound. -/
theorem log_rotation_spec_witness :
    (writeToFile
        { allowedDirectories := [], protectedPatterns := [],
          logLevel := LogLevel.info, maxBatchSize := 1,
          maxLogFileSize := some 100, maxLogFiles := some 2 }
        { files := [{ id := 0, mtime := 0, size := 95 },
                    { id := 1, mtime := 1, size := 98 },
                    { id := 2, mtime := 2, size := 99 }],
          clock := 3, nextId := 3, currentLogFile := some 2,
          currentLogFileSize := 99 } 10).currentLogFileSize = 10 ∧
    (writeToFile
        { allowedDirectories := [], protectedPatterns := [],
          logLevel := LogLevel.info, maxBatchSize := 1,
          maxLogFileSize := some 100, maxLogFiles := some 2 }
        { files := [{ id := 0, mtime := 0, size := 95 },
                    { id := 1, mtime := 1, size := 98 },
                    { id := 2, mtime := 2, size := 99 }],
          clock := 3, nextId := 3, currentLogFile := some 2,
          currentLogFileSize := 99 } 10).files.length ≤ 3 :=
  let h := log_rotation_spec
    { allowedDirectories := [], protectedPatterns := [],
      logLevel := LogLevel.info, maxBatchSize := 1,
      maxLogFileSize := some 100, maxLogFiles := some 2 }
    { files := [{ id := 0, mtime := 0, size := 95 },
                { id := 1, mtime := 1, size := 98 },
                { id := 2, mtime := 2, size := 99 }],
      clock := 3, nextId := 3, currentLogFile := some 2,
      currentLogFileSize := 99 } 10 2 rfl
    (by decide) (by decide) (by decide)
  ⟨h.1.2.2.2.1, h.1.2.2.2.2.2.2.1⟩

end SafeDeletion
